import Mathlib

/-!
Verification of `nagibackup` (src/main.go, final version) against its
natural-language specification.

The Go program crawls a paginated image gallery: `fetchAllImageUrls`
walks listing pages and streams item URLs; `downloadImages` (or, in
dry-run mode, `printImages`) consumes the stream; `getActualImageUrl`
resolves the asset URL on a detail page; `downloadImage` transfers the
bytes; a buffered channel `semaphore` of capacity `config.parallel`
bounds concurrency.

We embed the program shallowly: pure extraction logic becomes Lean
functions over modelled documents; functions that may call `log.Fatal`
return a `ProcResult` distinguishing normal return from fatal process
abort; the semaphore discipline becomes a small-step transition
relation.  Fetches are modelled as environments (`String → ...`)
supplied as parameters.
-/

namespace Nagibackup

/-- Result of running a piece of Go code that may call `log.Fatal`:
either a normal return carrying a value, or a fatal process abort
(`log.Fatal` calls `os.Exit(1)`, skipping deferred calls). -/
inductive ProcResult (α : Type) where
  | normal (a : α)
  | fatal
  deriving DecidableEq, Repr

/-- Go's `strings.Contains(s, sub)`: `sub` occurs as a contiguous
substring of `s`. -/
def goContains (s sub : String) : Bool :=
  decide (sub.toList <:+: s.toList)

/-- Go's `strings.HasPrefix(s, pre)`: `s` begins with `pre`. -/
def goStartsWith (s pre : String) : Bool :=
  decide (pre.toList <+: s.toList)

/-- The model of one `div table` match inside a detail page, as consumed
by `getActualImageUrl`: `parentImgs` lists the `src` attributes (missing
attribute = `none`) of the `img` elements found by `s.Parent().Find("img")`,
in document order.  goquery's `Attr` reads only the first node of a
selection, so only the head of this list matters. -/
structure TableCtx where
  parentImgs : List (Option String)
  deriving DecidableEq, Repr

/-- goquery `el.Attr("src")` on the selection of a table's parent's imgs:
the attribute of the first node, or failure when the selection is empty
or the first img has no `src`. -/
def firstImgSrc (t : TableCtx) : Option String :=
  match t.parentImgs with
  | [] => none
  | o :: _ => o

/-- Embedding of the `doc.Find("div table").Each(...)` loop body of
`getActualImageUrl`: iterate over all matched tables, and each table
whose parent's first img carries a `src` overwrites the named return
`image` (initially `""`). -/
def getActualImageUrl (tables : List TableCtx) : String :=
  tables.foldl
    (fun image t =>
      match firstImgSrc t with
      | some val => val
      | none => image)
    ""

/-- Embedding of the whole `getActualImageUrl` function including the
fetch: `none` models a `goquery.NewDocument` error, on which the Go code
logs with `log.Print` and returns the zero-valued named return `""`.
No path of this function calls `log.Fatal`. -/
def getActualImageUrlRun (fetched : Option (List TableCtx)) : ProcResult String :=
  match fetched with
  | none => ProcResult.normal ""
  | some tables => ProcResult.normal (getActualImageUrl tables)

/-- Embedding of `extractImageUrls`: iterate the `div.imagelog p a`
anchors of a listing page (each modelled by its optional `href`).  An
anchor with no `href` triggers `log.Fatal("Href not found")` when
`config.verbose` is set, and is silently skipped otherwise; anchors with
an `href` are sent on the `urls` channel, modelled by collecting them in
order. -/
def extractImageUrls (verbose : Bool) : List (Option String) → ProcResult (List String)
  | [] => ProcResult.normal []
  | none :: rest =>
      if verbose then ProcResult.fatal
      else extractImageUrls verbose rest
  | some val :: rest =>
      match extractImageUrls verbose rest with
      | ProcResult.normal vs => ProcResult.normal (val :: vs)
      | ProcResult.fatal => ProcResult.fatal

/-- One `div.pager a.navi` anchor as consumed by `extractNextUrl`:
its optional `id` and `href` attributes. -/
structure PagerAnchor where
  idAttr : Option String
  hrefAttr : Option String
  deriving DecidableEq, Repr

/-- Embedding of `extractNextUrl`: scan all pager anchors; an anchor
without an `id`, or whose `id` does not start with `"next_pager_"`, is
skipped; otherwise the named return `nextUrl` is overwritten with
`config.defaultDomain + href`, where a missing `href` only logs
("Invalid pager link") and leaves `pageNextUrl` at its zero value `""`. -/
def extractNextUrl (dom : String) (anchors : List PagerAnchor) : String :=
  anchors.foldl
    (fun nextUrl a =>
      match a.idAttr with
      | none => nextUrl
      | some idv =>
          if goStartsWith idv "next_pager_" then
            dom ++ (a.hrefAttr.getD "")
          else nextUrl)
    ""

/-- Embedding of the `conf` struct.  Matches the Go fields; `size` is
declared but never consulted by the final code (its use is a TODO). -/
structure Conf where
  directory : String
  url : String
  verbose : Bool
  dryrun : Bool
  size : Int
  parallel : Nat
  defaultDomain : String
  deriving DecidableEq, Repr

/-- A listing page as consumed by `fetchAllImageUrls`: the optional
`href`s of its `div.imagelog p a` item anchors, and its `div.pager a.navi`
pager anchors. -/
structure ListPage where
  itemAnchors : List (Option String)
  pagerAnchors : List PagerAnchor
  deriving Repr

/-- The next-page URL the walker computes from the listing page at
`url`, under the environment `pages` (all listing fetches succeeding). -/
def nextOf (cfg : Conf) (pages : String → ListPage) (url : String) : String :=
  extractNextUrl cfg.defaultDomain (pages url).pagerAnchors

/-- The sequence of current-page URLs the walker visits: `urlSeq ... 0`
is the seed and each later entry is `nextOf` of the previous one. -/
def urlSeq (cfg : Conf) (pages : String → ListPage) (seed : String) : Nat → String
  | 0 => seed
  | k + 1 => nextOf cfg pages (urlSeq cfg pages seed k)

/-- Outcome of running the `fetchAllImageUrls` loop with a given amount
of fuel: the loop exits normally having emitted `items` with the `urls`
channel closed iff `closed` (the close is deferred, so it runs on every
normal return); or it aborts the process via `log.Fatal` (deferred
close skipped); or the fuel ran out before the loop finished. -/
inductive LoopRes where
  | out (items : List String) (closed : Bool)
  | fatalStop
  | fuelOut
  deriving DecidableEq, Repr

/-- Joins the items of the current page with the remainder of the walk:
sends on the channel happen in page order, a later fatal abort or fuel
exhaustion is propagated. -/
def joinItems (items : List String) : LoopRes → LoopRes
  | LoopRes.out rest closed => LoopRes.out (items ++ rest) closed
  | LoopRes.fatalStop => LoopRes.fatalStop
  | LoopRes.fuelOut => LoopRes.fuelOut

/-- Lifts the continuation of the loop body over the result of
`extractImageUrls`, propagating its fatal abort. -/
def pageStep (k : List String → LoopRes) : ProcResult (List String) → LoopRes
  | ProcResult.fatal => LoopRes.fatalStop
  | ProcResult.normal items => k items

/-- Embedding of the `fetchAllImageUrls` loop (fuel-indexed).  While
`url != ""`: fetch the page (modelled total via `pages`), run
`extractImageUrls` (which may abort fatally), compute `extractNextUrl`;
if it equals the current URL, break (cycle guard); otherwise continue
from it.  On loop exit the deferred `close(urls)` runs. -/
def fetchLoop (cfg : Conf) (pages : String → ListPage) :
    Nat → String → LoopRes
  | 0, _ => LoopRes.fuelOut
  | fuel + 1, url =>
      if url = "" then LoopRes.out [] true
      else
        pageStep
          (fun items =>
            if url = nextOf cfg pages url then LoopRes.out items true
            else joinItems items (fetchLoop cfg pages fuel (nextOf cfg pages url)))
          (extractImageUrls cfg.verbose (pages url).itemAnchors)

/-- Outcomes of the downstream I/O calls made by `downloadImage` for one
asset: whether `os.Create`, `http.Get`, `io.Copy` and `out.Sync`
succeed. -/
structure DlEnv where
  createOk : Bool
  getOk : Bool
  copyOk : Bool
  syncOk : Bool
  deriving DecidableEq, Repr

/-- Observable steps of one download task. -/
inductive DlEv where
  | created
  | fetched
  | copied
  | synced
  | tokenReleased
  deriving DecidableEq, Repr

/-- Embedding of `downloadImage`: `os.Create` failure hits `log.Fatal`
(process abort); `http.Get` failure is logged and the function returns;
`io.Copy` and `out.Sync` failures are only logged, execution falls
through. -/
def downloadImageRun (env : DlEnv) : ProcResult (List DlEv) :=
  if !env.createOk then ProcResult.fatal
  else if !env.getOk then ProcResult.normal [DlEv.created]
  else
    ProcResult.normal
      ([DlEv.created, DlEv.fetched]
        ++ (if env.copyOk then [DlEv.copied] else [])
        ++ (if env.syncOk then [DlEv.synced] else []))

/-- Embedding of `downloadActualImage` given the already-resolved asset
URL `img`: download when `img` is non-empty, then (when
`config.parallel > 0`) receive from the semaphore, releasing the token.
A fatal abort inside `downloadImage` skips the release. -/
def downloadActualImageRun (cfg : Conf) (img : String) (env : DlEnv) :
    ProcResult (List DlEv) :=
  match (if img ≠ "" then downloadImageRun env else ProcResult.normal []) with
  | ProcResult.fatal => ProcResult.fatal
  | ProcResult.normal evs =>
      ProcResult.normal
        (evs ++ (if cfg.parallel > 0 then [DlEv.tokenReleased] else []))

/-- An item detail page as consumed by the `downloadImages` loop body:
the optional `href`s of its `#zoom ul li a` anchors. -/
structure ItemPage where
  anchors : List (Option String)
  deriving Repr

/-- Resolution of an asset URL: fetch the detail page (`none` = fetch
error, logged, resolves to `""`) and run `getActualImageUrl` over it. -/
def resolveImg (detail : String → Option (List TableCtx)) (u : String) : String :=
  match detail u with
  | none => ""
  | some tables => getActualImageUrl tables

/-- Observable events of the Download Sink, in the interleaving where
each spawned `downloadActualImage` runs to completion at its spawn
point: `acquire` is the semaphore send in `downloadImages`, `resolve`
records the detail URL and the asset URL `getActualImageUrl` returned,
`download` is the actual transfer, `release` the semaphore receive at
the end of `downloadActualImage`. -/
inductive SinkEv where
  | acquire
  | resolve (url : String) (result : String)
  | download (img : String)
  | release
  deriving DecidableEq, Repr

/-- Events produced for one `#zoom` anchor href `val` that passed the
`strings.Contains(val, "size=o")` filter: the token is acquired (when
`config.parallel > 0`) before `downloadActualImage` is spawned; the
spawned task resolves the asset, downloads only when the resolution is
non-empty, and releases the token. -/
def processLink (cfg : Conf) (detail : String → Option (List TableCtx))
    (val : String) : List SinkEv :=
  (if cfg.parallel > 0 then [SinkEv.acquire] else [])
    ++ [SinkEv.resolve (cfg.defaultDomain ++ val) (resolveImg detail (cfg.defaultDomain ++ val))]
    ++ (if resolveImg detail (cfg.defaultDomain ++ val) ≠ "" then
          [SinkEv.download (resolveImg detail (cfg.defaultDomain ++ val))]
        else [])
    ++ (if cfg.parallel > 0 then [SinkEv.release] else [])

/-- Events for one `#zoom` anchor: a missing `href` is at most a warning
and is skipped; an href without `"size=o"` is skipped. -/
def sinkAnchor (cfg : Conf) (detail : String → Option (List TableCtx)) :
    Option String → List SinkEv
  | none => []
  | some val =>
      if goContains val "size=o" then processLink cfg detail val else []

/-- Events the sink produces for one item URL: a failed fetch of the
item page is logged and skipped (`continue`); otherwise each anchor is
processed in document order. -/
def sinkItem (cfg : Conf) (detail : String → Option (List TableCtx)) :
    Option ItemPage → List SinkEv
  | none => []
  | some p => p.anchors.flatMap (sinkAnchor cfg detail)

/-- Embedding of `printImages`: `fmt.Printf("%s\n", url)` for each item
URL received from the stream, in order. -/
def printImages (urls : List String) : List String :=
  urls.map (fun u => u ++ "\n")

/-- Top-level actions of `main` after argument parsing. -/
inductive MainStep where
  | mkdirAll (dir : String) (mode : Nat)
  | initSemaphore (n : Nat)
  | runPipeline (dry : Bool)
  | exitProc (code : Nat)
  deriving DecidableEq, Repr

/-- Embedding of `main`'s control flow: `createDestinationDir` (i.e.
`os.MkdirAll(config.directory, 0740)`) runs only when not in dry-run
mode and before `startDownloads`; the process then exits with status 0. -/
def mainSteps (cfg : Conf) : List MainStep :=
  (if cfg.dryrun then [] else [MainStep.mkdirAll cfg.directory 0o740])
    ++ [MainStep.initSemaphore cfg.parallel,
        MainStep.runPipeline cfg.dryrun,
        MainStep.exitProc 0]

/-- Observables of a completed run: directories created (path, mode),
sink events (downloads etc.), stdout lines, exit code. -/
structure RunObs where
  dirsCreated : List (String × Nat)
  sinkEvents : List SinkEv
  outLines : List String
  exitCode : Nat
  deriving DecidableEq, Repr

/-- Builds the observables once the pagination walk has delivered the
item-URL stream `itemUrls` and the stream was drained. -/
def finishRun (k : List String → RunObs) : LoopRes → Option RunObs
  | LoopRes.out itemUrls _ => some (k itemUrls)
  | LoopRes.fatalStop => none
  | LoopRes.fuelOut => none

/-- Embedding of a whole run of `main` under environments for listing
pages (`pages`), item detail pages (`items`), and asset detail pages
(`detail`).  Defined only (`some`) when the pagination walk completes
normally within `fuel`; a fatally aborted or non-terminating walk has
no modelled observables. -/
def runMain (cfg : Conf) (pages : String → ListPage)
    (items : String → Option ItemPage)
    (detail : String → Option (List TableCtx)) (fuel : Nat) : Option RunObs :=
  finishRun
    (fun itemUrls =>
      { dirsCreated := if cfg.dryrun then [] else [(cfg.directory, 0o740)]
        sinkEvents :=
          if cfg.dryrun then []
          else itemUrls.flatMap (fun u => sinkItem cfg detail (items u))
        outLines := if cfg.dryrun then printImages itemUrls else []
        exitCode := 0 })
    (fetchLoop cfg pages fuel cfg.url)

/-- State of the semaphore discipline: `acquired` is the occupancy of
the buffered channel `semaphore`; `sinkHolding` is true between the
sink's send and the subsequent `go downloadActualImage`; `running`
counts spawned tasks that have not yet received from the channel. -/
structure SemState where
  acquired : Nat
  sinkHolding : Bool
  running : Nat
  deriving DecidableEq, Repr

/-- Transitions of the semaphore discipline with pool capacity `N`
(`config.parallel`):
`acquireToken` is the send `semaphore <- struct{}{}` in
`downloadImages`, enabled only when the channel has a free slot;
`spawnTask` is `go downloadActualImage(...)` immediately after;
`releaseToken` is the receive `<-semaphore` a task performs once at the
end of `downloadActualImage`. -/
inductive SemStep (N : Nat) : SemState → SemState → Prop where
  | acquireToken (s : SemState) :
      s.sinkHolding = false → s.acquired < N →
      SemStep N s ⟨s.acquired + 1, true, s.running⟩
  | spawnTask (s : SemState) :
      s.sinkHolding = true →
      SemStep N s ⟨s.acquired, false, s.running + 1⟩
  | releaseToken (s : SemState) :
      0 < s.running →
      SemStep N s ⟨s.acquired - 1, s.sinkHolding, s.running - 1⟩

/-- States reachable from the initial state (empty semaphore, no task
in flight) by the semaphore discipline. -/
inductive SemReachable (N : Nat) : SemState → Prop where
  | init : SemReachable N ⟨0, false, 0⟩
  | step {s t : SemState} : SemReachable N s → SemStep N s t → SemReachable N t

/-- Number of tokens the sink itself is holding: 1 between its
semaphore send and the following spawn, else 0. -/
def holdCount : Bool → Nat
  | true => 1
  | false => 0

/-- Invariant of the semaphore discipline: the channel occupancy equals
the in-flight tasks plus the token the sink holds pending a spawn, and
never exceeds the capacity. -/
def semInvariant (N : Nat) (s : SemState) : Prop :=
  s.acquired = s.running + holdCount s.sinkHolding ∧ s.acquired ≤ N

/-- Formalisation of the spec's words for the Asset Resolver (claim C6):
the `src` attribute of the image belonging to the FIRST "table"
container of the document, and `""` when no such structure or attribute
exists.  This is spec-derived, to be compared against the
source-derived `getActualImageUrl`. -/
def specFirstTableImage (tables : List TableCtx) : String :=
  match tables with
  | [] => ""
  | t :: _ => (firstImgSrc t).getD ""

/-- The `src` associated with the last "div table" match whose parent's
first image element carries a `src`, or `""` when there is none. -/
def lastTableImage (tables : List TableCtx) : String :=
  ((tables.filterMap firstImgSrc).getLast?).getD ""

end Nagibackup

namespace Nagibackup

theorem semStep_invariant {N : Nat} {s t : SemState}
    (hs : semInvariant N s) (hstep : SemStep N s t) : semInvariant N t := by
  obtain ⟨h1, h2⟩ := hs
  cases hstep with
  | acquireToken hh hlt =>
      rw [hh] at h1
      simp only [holdCount] at h1
      refine ⟨?_, ?_⟩
      · show s.acquired + 1 = s.running + holdCount true
        simp only [holdCount]
        omega
      · show s.acquired + 1 ≤ N
        omega
  | spawnTask hh =>
      rw [hh] at h1
      simp only [holdCount] at h1
      refine ⟨?_, ?_⟩
      · show s.acquired = s.running + 1 + holdCount false
        simp only [holdCount]
        omega
      · show s.acquired ≤ N
        omega
  | releaseToken hr =>
      refine ⟨?_, ?_⟩
      · show s.acquired - 1 = s.running - 1 + holdCount s.sinkHolding
        omega
      · show s.acquired - 1 ≤ N
        omega

theorem semReachable_invariant {N : Nat} {s : SemState}
    (h : SemReachable N s) : semInvariant N s := by
  induction h with
  | init => exact ⟨by simp [holdCount], Nat.zero_le N⟩
  | step _ hstep ih => exact semStep_invariant ih hstep

/-- C1: for every configured parallelism N > 0, at most N
`downloadActualImage` tasks are in flight in any reachable state of the
semaphore discipline: every spawn is preceded by an acquire on the
capacity-N pool and each task releases exactly once, so
`running ≤ N` throughout every execution. -/
theorem tokenPool_bound_C1 (N : Nat) (s : SemState)
    (_hN : 0 < N) (hreach : SemReachable N s) : s.running ≤ N := by
  obtain ⟨h1, h2⟩ := semReachable_invariant hreach
  omega

/-- Witness for C1: with capacity 2, the state after one acquire and one
spawn is reachable and its in-flight count is within the bound. -/
theorem tokenPool_bound_C1_witness :
    SemReachable 2 ⟨1, false, 1⟩ ∧ (SemState.mk 1 false 1).running ≤ 2 := by
  have h0 : SemReachable 2 ⟨0, false, 0⟩ := SemReachable.init
  have h1 : SemReachable 2 ⟨1, true, 0⟩ :=
    SemReachable.step h0 (SemStep.acquireToken _ rfl (by decide))
  have h2 : SemReachable 2 ⟨1, false, 1⟩ :=
    SemReachable.step h1 (SemStep.spawnTask _ rfl)
  exact ⟨h2, tokenPool_bound_C1 2 _ (by decide) h2⟩

/-- Counterexample to C2 as stated: when `os.Create` fails,
`downloadImage` does not return normally — it hits `log.Fatal`, so the
process aborts and `downloadActualImage` never reaches the semaphore
receive that would release the token. -/
theorem createFail_aborts_C2_counterexample :
    downloadImageRun ⟨false, true, true, true⟩ = ProcResult.fatal ∧
    downloadActualImageRun ⟨"d", "u", false, false, 0, 4, "http://nagi.ee"⟩
      "img" ⟨false, true, true, true⟩ = ProcResult.fatal := by
  decide

/-- C2 (amended): when `os.Create` succeeds, every later failure (HTTP
GET, body copy, sync) is logged and `downloadImage` returns normally,
and the spawned task still releases its concurrency token; a failure of
`os.Create` itself, however, aborts the run via `log.Fatal`. -/
theorem downloadImage_failures_C2 (cfg : Conf) (img : String) (env : DlEnv)
    (hc : env.createOk = true) (hp : 0 < cfg.parallel) :
    (∃ evs, downloadImageRun env = ProcResult.normal evs) ∧
    (∃ evs, downloadActualImageRun cfg img env = ProcResult.normal evs ∧
      DlEv.tokenReleased ∈ evs) := by
  have hdl : ∃ evs, downloadImageRun env = ProcResult.normal evs := by
    unfold downloadImageRun
    rw [hc]
    simp only [Bool.not_true, Bool.false_eq_true, if_false]
    split
    · exact ⟨_, rfl⟩
    · exact ⟨_, rfl⟩
  obtain ⟨evs, hevs⟩ := hdl
  refine ⟨⟨evs, hevs⟩, ?_⟩
  unfold downloadActualImageRun
  by_cases him : img = ""
  · rw [if_neg (by simp [him])]
    refine ⟨[] ++ [DlEv.tokenReleased], ?_, by simp⟩
    rw [if_pos hp]
  · rw [if_pos him, hevs]
    refine ⟨evs ++ [DlEv.tokenReleased], ?_, by simp⟩
    rw [if_pos hp]

/-- Witness for C2 (amended): a concrete environment where create
succeeds and the HTTP GET fails. -/
theorem downloadImage_failures_C2_witness :
    (∃ evs, downloadImageRun ⟨true, false, true, true⟩ = ProcResult.normal evs) ∧
    (∃ evs, downloadActualImageRun ⟨"d", "u", false, false, 0, 4, "x"⟩ "i"
        ⟨true, false, true, true⟩ = ProcResult.normal evs ∧
      DlEv.tokenReleased ∈ evs) :=
  downloadImage_failures_C2 ⟨"d", "u", false, false, 0, 4, "x"⟩ "i"
    ⟨true, false, true, true⟩ rfl (by decide)

/-- C3 (code bug): in `extractImageUrls` an item anchor with no `href`
hits `log.Fatal("Href not found")` when `config.verbose` is set, so the
process aborts instead of skipping with a warning; with verbose off the
anchor is skipped and the remaining item URLs are still emitted. -/
theorem missingHref_fatal_C3 :
    extractImageUrls true [some "a", none, some "b"] = ProcResult.fatal ∧
    extractImageUrls false [some "a", none, some "b"] =
      ProcResult.normal ["a", "b"] := by
  decide

theorem fetchLoop_zero (cfg : Conf) (pages : String → ListPage) (url : String) :
    fetchLoop cfg pages 0 url = LoopRes.fuelOut := rfl

theorem fetchLoop_succ (cfg : Conf) (pages : String → ListPage)
    (fuel : Nat) (url : String) :
    fetchLoop cfg pages (fuel + 1) url =
      if url = "" then LoopRes.out [] true
      else
        pageStep
          (fun items =>
            if url = nextOf cfg pages url then LoopRes.out items true
            else joinItems items (fetchLoop cfg pages fuel (nextOf cfg pages url)))
          (extractImageUrls cfg.verbose (pages url).itemAnchors) := by
  rw [fetchLoop]

theorem urlSeq_shift (cfg : Conf) (pages : String → ListPage)
    (seed : String) (k : Nat) :
    urlSeq cfg pages seed (k + 1) = urlSeq cfg pages (nextOf cfg pages seed) k := by
  induction k with
  | zero => rfl
  | succ k ih =>
      show nextOf cfg pages (urlSeq cfg pages seed (k + 1)) =
        nextOf cfg pages (urlSeq cfg pages (nextOf cfg pages seed) k)
      rw [ih]

theorem fetchLoop_closed (cfg : Conf) (pages : String → ListPage) :
    ∀ (fuel : Nat) (url : String) (items : List String) (closed : Bool),
      fetchLoop cfg pages fuel url = LoopRes.out items closed → closed = true := by
  intro fuel
  induction fuel with
  | zero =>
      intro url items closed h
      rw [fetchLoop_zero] at h
      cases h
  | succ fuel ih =>
      intro url items closed h
      rw [fetchLoop_succ] at h
      by_cases hu : url = ""
      · rw [if_pos hu] at h
        injection h with h1 h2
        exact h2.symm
      · rw [if_neg hu] at h
        cases hE : extractImageUrls cfg.verbose (pages url).itemAnchors with
        | fatal =>
            rw [hE] at h
            simp only [pageStep] at h
            cases h
        | normal its =>
            rw [hE] at h
            simp only [pageStep] at h
            by_cases hnx : url = nextOf cfg pages url
            · rw [if_pos hnx] at h
              injection h with h1 h2
              exact h2.symm
            · rw [if_neg hnx] at h
              cases hR : fetchLoop cfg pages fuel (nextOf cfg pages url) with
              | out rest closed2 =>
                  rw [hR] at h
                  simp only [joinItems] at h
                  injection h with h1 h2
                  rw [← h2]
                  exact ih _ _ _ hR
              | fatalStop =>
                  rw [hR] at h
                  simp only [joinItems] at h
                  cases h
              | fuelOut =>
                  rw [hR] at h
                  simp only [joinItems] at h
                  cases h

theorem fetchLoop_halts (cfg : Conf) (pages : String → ListPage) :
    ∀ (k : Nat) (seed : String) (fuel : Nat),
      (nextOf cfg pages (urlSeq cfg pages seed k) = "" ∨
        nextOf cfg pages (urlSeq cfg pages seed k) = urlSeq cfg pages seed k) →
      k + 2 ≤ fuel → fetchLoop cfg pages fuel seed ≠ LoopRes.fuelOut := by
  intro k
  induction k with
  | zero =>
      intro seed fuel hcond hfuel
      obtain ⟨f, rfl⟩ : ∃ f, fuel = (f + 1) + 1 := ⟨fuel - 2, by omega⟩
      rw [fetchLoop_succ]
      by_cases hseed : seed = ""
      · rw [if_pos hseed]
        intro hcontra
        cases hcontra
      · rw [if_neg hseed]
        cases hE : extractImageUrls cfg.verbose (pages seed).itemAnchors with
        | fatal =>
            simp only [pageStep]
            intro hcontra
            cases hcontra
        | normal items =>
            simp only [pageStep]
            by_cases hnx : seed = nextOf cfg pages seed
            · rw [if_pos hnx]
              intro hcontra
              cases hcontra
            · rw [if_neg hnx]
              have hnext : nextOf cfg pages seed = "" := by
                rcases hcond with h | h
                · exact h
                · exact absurd h.symm hnx
              rw [hnext, fetchLoop_succ, if_pos rfl]
              simp only [joinItems]
              intro hcontra
              cases hcontra
  | succ k ih =>
      intro seed fuel hcond hfuel
      obtain ⟨f, rfl⟩ : ∃ f, fuel = f + 1 := ⟨fuel - 1, by omega⟩
      rw [fetchLoop_succ]
      by_cases hseed : seed = ""
      · rw [if_pos hseed]
        intro hcontra
        cases hcontra
      · rw [if_neg hseed]
        cases hE : extractImageUrls cfg.verbose (pages seed).itemAnchors with
        | fatal =>
            simp only [pageStep]
            intro hcontra
            cases hcontra
        | normal items =>
            simp only [pageStep]
            by_cases hnx : seed = nextOf cfg pages seed
            · rw [if_pos hnx]
              intro hcontra
              cases hcontra
            · rw [if_neg hnx]
              have hrec : fetchLoop cfg pages f (nextOf cfg pages seed) ≠ LoopRes.fuelOut := by
                apply ih
                · rw [← urlSeq_shift]
                  exact hcond
                · omega
              cases hR : fetchLoop cfg pages f (nextOf cfg pages seed) with
              | out rest closed =>
                  simp only [joinItems]
                  intro hcontra
                  cases hcontra
              | fatalStop =>
                  simp only [joinItems]
                  intro hcontra
                  cases hcontra
              | fuelOut => exact absurd hR hrec

/-- C4: whenever the page sequence reached from the seed eventually
yields no next-page link (`extractNextUrl` empty) or a next-page link
textually equal to the current page URL, the `fetchAllImageUrls` loop
halts within bounded fuel, and every normal loop exit closes the
item-URL stream (the deferred `close(urls)`). -/
theorem pagination_terminates_C4 (cfg : Conf) (pages : String → ListPage)
    (k fuel : Nat)
    (hcond : nextOf cfg pages (urlSeq cfg pages cfg.url k) = "" ∨
      nextOf cfg pages (urlSeq cfg pages cfg.url k) = urlSeq cfg pages cfg.url k)
    (hfuel : k + 2 ≤ fuel) :
    fetchLoop cfg pages fuel cfg.url ≠ LoopRes.fuelOut ∧
    ∀ items closed, fetchLoop cfg pages fuel cfg.url = LoopRes.out items closed →
      closed = true := by
  exact ⟨fetchLoop_halts cfg pages k cfg.url fuel hcond hfuel,
    fun items closed h => fetchLoop_closed cfg pages fuel cfg.url items closed h⟩

/-- Witness for C4: a single listing page with two items and no pager
link at all terminates the walk with the stream closed. -/
theorem pagination_terminates_C4_witness :
    (fetchLoop ⟨"", "http://s", false, true, 0, 4, "http://nagi.ee"⟩
        (fun _ => ⟨[some "i1", some "i2"], []⟩) 2 "http://s" ≠ LoopRes.fuelOut ∧
      ∀ items closed,
        fetchLoop ⟨"", "http://s", false, true, 0, 4, "http://nagi.ee"⟩
          (fun _ => ⟨[some "i1", some "i2"], []⟩) 2 "http://s" =
          LoopRes.out items closed → closed = true) := by
  exact pagination_terminates_C4 ⟨"", "http://s", false, true, 0, 4, "http://nagi.ee"⟩
    (fun _ => ⟨[some "i1", some "i2"], []⟩) 0 2 (Or.inl (by decide)) (by decide)

/-- Counterexample to C5 as stated: for an item whose asset resolves
empty (detail page with no tables), the sink still acquires a token —
the acquire in `downloadImages` happens before the spawned task runs
`getActualImageUrl`, so the trace holds an acquire even though the
resolution result is empty. -/
theorem acquireBeforeResolve_C5_counterexample :
    processLink ⟨"d", "u", false, false, 0, 4, "http://nagi.ee"⟩
        (fun _ => some []) "/a?size=o" =
      [SinkEv.acquire, SinkEv.resolve "http://nagi.ee/a?size=o" "",
        SinkEv.release] ∧
    SinkEv.acquire ∈
      processLink ⟨"d", "u", false, false, 0, 4, "http://nagi.ee"⟩
        (fun _ => some []) "/a?size=o" ∧
    resolveImg (fun _ => (some [] : Option (List TableCtx)))
      "http://nagi.ee/a?size=o" = "" := by
  decide

/-- C5 (amended): for every `size=o` link processed with parallelism
above zero, the token is acquired before the spawned task resolves the
asset and released at the end; a download happens exactly when the
resolution is non-empty, so an empty-asset item holds a token briefly
but never downloads. -/
theorem processLink_order_C5 (cfg : Conf)
    (detail : String → Option (List TableCtx)) (val : String)
    (hp : 0 < cfg.parallel) :
    (processLink cfg detail val).head? = some SinkEv.acquire ∧
    (processLink cfg detail val).getLast? = some SinkEv.release ∧
    (SinkEv.download (resolveImg detail (cfg.defaultDomain ++ val)) ∈
        processLink cfg detail val ↔
      resolveImg detail (cfg.defaultDomain ++ val) ≠ "") := by
  have htrace : processLink cfg detail val =
      SinkEv.acquire ::
        SinkEv.resolve (cfg.defaultDomain ++ val)
            (resolveImg detail (cfg.defaultDomain ++ val)) ::
          ((if resolveImg detail (cfg.defaultDomain ++ val) ≠ "" then
              [SinkEv.download (resolveImg detail (cfg.defaultDomain ++ val))]
            else []) ++ [SinkEv.release]) := by
    unfold processLink
    rw [if_pos hp, if_pos hp]
    simp [List.append_assoc]
  rw [htrace]
  by_cases hr : resolveImg detail (cfg.defaultDomain ++ val) = ""
  · rw [hr, if_neg (by simp)]
    exact ⟨rfl, rfl, by simp [hr]⟩
  · rw [if_pos hr]
    exact ⟨rfl, rfl, by simp [hr]⟩

/-- Witness for C5 (amended): a concrete link whose asset resolves to a
non-empty URL. -/
theorem processLink_order_C5_witness :
    (processLink ⟨"d", "u", false, false, 0, 4, "http://nagi.ee"⟩
        (fun _ => some [⟨[some "img1.jpg"]⟩]) "/b?size=o").head? =
        some SinkEv.acquire ∧
    (processLink ⟨"d", "u", false, false, 0, 4, "http://nagi.ee"⟩
        (fun _ => some [⟨[some "img1.jpg"]⟩]) "/b?size=o").getLast? =
        some SinkEv.release ∧
    (SinkEv.download
        (resolveImg (fun _ => some [⟨[some "img1.jpg"]⟩])
          "http://nagi.ee/b?size=o") ∈
        processLink ⟨"d", "u", false, false, 0, 4, "http://nagi.ee"⟩
          (fun _ => some [⟨[some "img1.jpg"]⟩]) "/b?size=o" ↔
      resolveImg (fun _ => some [⟨[some "img1.jpg"]⟩])
        "http://nagi.ee/b?size=o" ≠ "") :=
  processLink_order_C5 ⟨"d", "u", false, false, 0, 4, "http://nagi.ee"⟩
    (fun _ => some [⟨[some "img1.jpg"]⟩]) "/b?size=o" (by decide)

/-- Counterexample to C6 as stated: with two "div table" matches whose
adjacent images carry `src` values "first.jpg" and "second.jpg", the
code returns "second.jpg" — each iteration of the `Each` loop
overwrites `image`, so the LAST table wins, not the first as the spec
says. -/
theorem lastTableWins_C6_counterexample :
    getActualImageUrl [⟨[some "first.jpg"]⟩, ⟨[some "second.jpg"]⟩] =
      "second.jpg" ∧
    specFirstTableImage [⟨[some "first.jpg"]⟩, ⟨[some "second.jpg"]⟩] =
      "first.jpg" ∧
    ("second.jpg" : String) ≠ "first.jpg" := by
  decide

theorem getLast?_getD_cons (l : List String) :
    ∀ v acc : String, ((v :: l).getLast?).getD acc = (l.getLast?).getD v := by
  induction l with
  | nil => intro v acc; rfl
  | cons w ws ih =>
      intro v acc
      rw [List.getLast?_cons_cons, ih w acc, ih w v]

theorem foldl_image_eq (tables : List TableCtx) :
    ∀ acc : String,
      tables.foldl
          (fun image t =>
            match firstImgSrc t with
            | some val => val
            | none => image)
          acc =
        ((tables.filterMap firstImgSrc).getLast?).getD acc := by
  induction tables with
  | nil => intro acc; rfl
  | cons t ts ih =>
      intro acc
      cases hs : firstImgSrc t with
      | none =>
          simp only [List.foldl_cons, hs, List.filterMap_cons]
          exact ih acc
      | some v =>
          simp only [List.foldl_cons, hs, List.filterMap_cons]
          rw [ih v, ← getLast?_getD_cons]

/-- C6 (amended): `getActualImageUrl` returns the `src` associated with
the LAST "div table" match whose parent's first image element carries a
`src` (each match overwrites the previous result), and the empty string
when there is no such match. -/
theorem getActualImageUrl_last_C6 (tables : List TableCtx) :
    getActualImageUrl tables = lastTableImage tables := by
  unfold getActualImageUrl lastTableImage
  exact foldl_image_eq tables ""

theorem foldl_image_none :
    ∀ tables : List TableCtx, (∀ t ∈ tables, firstImgSrc t = none) →
      ∀ acc : String,
        tables.foldl
            (fun image t =>
              match firstImgSrc t with
              | some val => val
              | none => image)
            acc = acc := by
  intro tables
  induction tables with
  | nil => intro _ acc; rfl
  | cons t ts ih =>
      intro hall acc
      have ht : firstImgSrc t = none := hall t (List.mem_cons_self t ts)
      simp only [List.foldl_cons, ht]
      exact ih (fun u hu => hall u (List.mem_cons_of_mem t hu)) acc

/-- C7: the Asset Resolver never aborts the run: it always returns
normally; a fetch/parse failure of the detail page resolves to the
empty string; and when no table context carries an image `src`, the
result degrades to the empty string as well. -/
theorem resolver_total_C7 :
    (∀ fetched : Option (List TableCtx),
      ∃ s, getActualImageUrlRun fetched = ProcResult.normal s) ∧
    getActualImageUrlRun none = ProcResult.normal "" ∧
    ∀ tables : List TableCtx, (∀ t ∈ tables, firstImgSrc t = none) →
      getActualImageUrl tables = "" := by
  refine ⟨?_, rfl, ?_⟩
  · intro fetched
    cases fetched with
    | none => exact ⟨"", rfl⟩
    | some tables => exact ⟨getActualImageUrl tables, rfl⟩
  · intro tables hall
    exact foldl_image_none tables hall ""

/-- Counterexample to C8 as stated: `createDestinationDir` passes mode
0740 to `os.MkdirAll`, not 0750 — the group gets read permission but no
execute permission (group bits 4, not 5). -/
theorem mkdirMode_C8_counterexample :
    MainStep.mkdirAll "out" 0o740 ∈
      mainSteps ⟨"out", "http://s", false, false, 0, 4, "d"⟩ ∧
    MainStep.mkdirAll "out" 0o750 ∉
      mainSteps ⟨"out", "http://s", false, false, 0, 4, "d"⟩ ∧
    (0o740 : Nat) ≠ 0o750 ∧
    (0o740 : Nat) / 8 % 8 = 4 ∧ (0o750 : Nat) / 8 % 8 = 5 := by
  decide

/-- C8 (amended): in non-dry-run mode `main` creates the destination
directory (parents included, `os.MkdirAll`) with mode 0740 — owner
read/write/execute, group read only — strictly before the download
pipeline starts, and exits 0 afterwards. -/
theorem mkdir_before_downloads_C8 (cfg : Conf) (hdry : cfg.dryrun = false) :
    mainSteps cfg =
      [MainStep.mkdirAll cfg.directory 0o740,
       MainStep.initSemaphore cfg.parallel,
       MainStep.runPipeline false,
       MainStep.exitProc 0] := by
  unfold mainSteps
  rw [hdry]
  rfl

/-- Witness for C8 (amended): a concrete non-dry-run configuration. -/
theorem mkdir_before_downloads_C8_witness :
    mainSteps ⟨"out", "http://s", false, false, 0, 4, "d"⟩ =
      [MainStep.mkdirAll "out" 0o740,
       MainStep.initSemaphore 4,
       MainStep.runPipeline false,
       MainStep.exitProc 0] :=
  mkdir_before_downloads_C8 ⟨"out", "http://s", false, false, 0, 4, "d"⟩ rfl

/-- C9: in dry-run mode a completed run creates no directory and
produces no sink event (no download transfer); the Report Sink emits
one output line per item URL of the drained stream, verbatim and in
stream order, and the process exits with status 0. -/
theorem dryrun_behavior_C9 (cfg : Conf) (pages : String → ListPage)
    (items : String → Option ItemPage)
    (detail : String → Option (List TableCtx)) (fuel : Nat) (obs : RunObs)
    (hdry : cfg.dryrun = true)
    (hrun : runMain cfg pages items detail fuel = some obs) :
    obs.dirsCreated = [] ∧ obs.sinkEvents = [] ∧ obs.exitCode = 0 ∧
    ∃ itemUrls closed,
      fetchLoop cfg pages fuel cfg.url = LoopRes.out itemUrls closed ∧
      obs.outLines = itemUrls.map (fun u => u ++ "\n") := by
  unfold runMain at hrun
  cases hL : fetchLoop cfg pages fuel cfg.url with
  | out itemUrls closed =>
      rw [hL] at hrun
      simp only [finishRun] at hrun
      injection hrun with hobs
      subst hobs
      refine ⟨?_, ?_, rfl, itemUrls, closed, rfl, ?_⟩
      · simp [hdry]
      · simp [hdry]
      · simp [hdry, printImages]
  | fatalStop =>
      rw [hL] at hrun
      simp only [finishRun] at hrun
      cases hrun
  | fuelOut =>
      rw [hL] at hrun
      simp only [finishRun] at hrun
      cases hrun

/-- Witness for C9: a one-page dry run with two items. -/
theorem dryrun_behavior_C9_witness :
    (RunObs.mk [] [] ["i1\n", "i2\n"] 0).dirsCreated = [] ∧
    (RunObs.mk [] [] ["i1\n", "i2\n"] 0).sinkEvents = [] ∧
    (RunObs.mk [] [] ["i1\n", "i2\n"] 0).exitCode = 0 ∧
    ∃ itemUrls closed,
      fetchLoop ⟨"", "http://s", false, true, 0, 4, "http://nagi.ee"⟩
          (fun _ => ⟨[some "i1", some "i2"], []⟩) 2 "http://s" =
        LoopRes.out itemUrls closed ∧
      (RunObs.mk [] [] ["i1\n", "i2\n"] 0).outLines =
        itemUrls.map (fun u => u ++ "\n") :=
  dryrun_behavior_C9 ⟨"", "http://s", false, true, 0, 4, "http://nagi.ee"⟩
    (fun _ => ⟨[some "i1", some "i2"], []⟩) (fun _ => none) (fun _ => none) 2
    (RunObs.mk [] [] ["i1\n", "i2\n"] 0) rfl (by decide)

/-- C10 (code bug): a pager anchor whose id has the "next_pager_"
prefix but which lacks an href does not resolve to an empty next URL:
`extractNextUrl` logs "Invalid pager link" but fails to stop, so it
concatenates the default domain with the zero-valued href and the walk
continues at the bare default domain (emitting that page's items)
instead of terminating. -/
theorem pagerMissingHref_C10 :
    extractNextUrl "http://nagi.ee" [⟨some "next_pager_2", none⟩] =
      "http://nagi.ee" ∧
    ("http://nagi.ee" : String) ≠ "" ∧
    fetchLoop ⟨"", "http://s", false, true, 0, 4, "http://nagi.ee"⟩
      (fun u =>
        if u = "http://s" then ⟨[some "i"], [⟨some "next_pager_2", none⟩]⟩
        else ⟨[some "j"], []⟩)
      3 "http://s" = LoopRes.out ["i", "j"] true := by
  decide

end Nagibackup
